import Mathlib

/-!
Verification development for the VaporTrail time-series engine.

The Go source is shallowly embedded: pure fragments become Lean functions,
the SQLite store becomes an explicit `StoreState` record with the SQL
statements of `internal/db` modelled as list transformations, and the
periodic managers (`RollupManager`, `RetentionManager`) become functions
from a store snapshot and a clock instant to the rows they write or the
store they leave behind.

Modelling conventions, fixed throughout:
* Timestamps are integers (whole seconds on the UTC time line).  The zero
  value `0` plays the role of Go `time.Time{}.IsZero()` for the
  `MAX(time)` / `MIN(time)` queries, exactly as in the source.
* Latencies and probe timeouts are rationals, standing in for Go
  `float64` values exactly (the claims under study use only equality,
  order and truncation of these quantities, never rounding).
* The go-tdigest library is external to the repository.  Its digest is
  modelled as a compression parameter plus an exact centroid list, and
  its byte codec (`AsBytes` / `FromBytes`) is a parameter (`TDigestCodec`)
  of every definition that serializes: the repository code never inspects
  the bytes except for the explicit `len(data) == 0` test in
  `DeserializeTDigest`, which is embedded directly.
-/

namespace VaporTrail

/-- Exact model of a t-digest: the compression parameter given to
`tdigest.New` and the list of (mean, weight) centroids.  The claims in this
development depend only on digest construction (`New`, `Add`, `Merge` as
used by the rollup), not on quantile compression, so centroids are kept
exactly. -/
structure TDigest where
  compression : ℚ
  centroids : List (ℚ × ℚ)
deriving Repr, DecidableEq

/-- `tdigest.New(tdigest.Compression(c))`: a fresh digest with no
centroids. -/
def TDigest.new (c : ℚ) : TDigest :=
  { compression := c, centroids := [] }

/-- `td.Add(x)`: record one observation of value `x` with weight 1. -/
def TDigest.add (td : TDigest) (x : ℚ) : TDigest :=
  { td with centroids := td.centroids ++ [(x, 1)] }

/-- `td.Merge(other)`: absorb the centroids of another digest. -/
def TDigest.mergeWith (td other : TDigest) : TDigest :=
  { td with centroids := td.centroids ++ other.centroids }

/-- The byte codec of the external go-tdigest library (`AsBytes` and
`FromBytes`).  The repository treats these as opaque, so the development is
parametric in them; bytes are modelled as lists of naturals. -/
structure TDigestCodec where
  serialize : TDigest → List Nat
  fromBytes : List Nat → Except String TDigest

/-- `db.SerializeTDigest` (internal/db/tdigest_utils.go): delegates to the
library `td.AsBytes()`. -/
def SerializeTDigest (codec : TDigestCodec) (td : TDigest) : List Nat :=
  codec.serialize td

/-- `db.DeserializeTDigest` (internal/db/tdigest_utils.go): an empty blob
decodes to a fresh digest with compression 100; anything else is handed to
the library `tdigest.FromBytes`. -/
def DeserializeTDigest (codec : TDigestCodec) (data : List Nat) : Except String TDigest :=
  if data.length = 0 then Except.ok (TDigest.new 100)
  else codec.fromBytes data

/-- One `(window, retention)` pair of a retention-policy ladder
(`scheduler.RetentionPolicy`); `window = 0` denotes the raw tier. -/
structure RetentionPolicy where
  window : Int
  retention : Int
deriving Repr, DecidableEq

/-- `scheduler.defaultPolicies`. -/
def defaultPolicies : List RetentionPolicy :=
  [⟨0, 604800⟩, ⟨60, 15768000⟩, ⟨300, 31536000⟩, ⟨3600, 315360000⟩, ⟨86400, 3153600000⟩]

/-- A probe target (`db.Target`).  The `retention_policies` JSON column is
modelled already parsed; the empty list stands for an absent, empty or
unparseable column, in which case the managers fall back to
`defaultPolicies` exactly as the Go helpers do. -/
structure Target where
  id : Int
  name : String
  address : String
  probeType : String
  probeInterval : ℚ
  timeout : ℚ
  retentionPolicies : List RetentionPolicy
deriving Repr, DecidableEq

/-- A raw probe sample (`db.RawResult`); `latency = -1` is the timeout
sentinel. -/
structure RawResult where
  time : Int
  targetID : Int
  latency : ℚ
deriving Repr, DecidableEq

/-- An aggregated window (`db.AggregatedResult`). -/
structure AggregatedResult where
  time : Int
  targetID : Int
  windowSeconds : Int
  tdigestData : List Nat
  timeoutCount : Int
deriving Repr, DecidableEq

/-- A row of the legacy `results` table (`db.Result`, the pre-rollup
schema still carried by the store). -/
structure LegacyResult where
  time : Int
  targetID : Int
  timeoutCount : Int
  tdigestData : List Nat
deriving Repr, DecidableEq

/-- A snapshot of the SQLite database: the four tables the engine touches. -/
structure StoreState where
  targets : List Target
  results : List LegacyResult
  rawResults : List RawResult
  aggResults : List AggregatedResult
deriving Repr, DecidableEq

/-- Ascending-by-time comparison used to model `ORDER BY time ASC`. -/
def byTimeRaw (a b : RawResult) : Prop := a.time ≤ b.time

instance : DecidableRel byTimeRaw := fun a b => Int.decLe a.time b.time

instance : IsTotal RawResult byTimeRaw := ⟨fun a b => Int.le_total a.time b.time⟩

instance : IsTrans RawResult byTimeRaw := ⟨fun _ _ _ h h2 => le_trans h h2⟩

/-- Ascending-by-time comparison for aggregated rows. -/
def byTimeAgg (a b : AggregatedResult) : Prop := a.time ≤ b.time

instance : DecidableRel byTimeAgg := fun a b => Int.decLe a.time b.time

instance : IsTotal AggregatedResult byTimeAgg := ⟨fun a b => Int.le_total a.time b.time⟩

instance : IsTrans AggregatedResult byTimeAgg := ⟨fun _ _ _ h h2 => le_trans h h2⟩

/-- `GetRawResults` (unnamed/part_005): rows of one target inside
`[start, end)`, ordered by time ascending, `LIMIT limit` with a negative
limit meaning unbounded (SQLite semantics of a negative LIMIT). -/
def GetRawResults (st : StoreState) (targetID : Int) (start end_ : Int) (limit : Int) :
    List RawResult :=
  let rows := List.insertionSort byTimeRaw
    (st.rawResults.filter fun r =>
      decide (r.targetID = targetID ∧ start ≤ r.time ∧ r.time < end_))
  if limit < 0 then rows else rows.take limit.toNat

/-- `GetAggregatedResults` (unnamed/part_005): rows of one target and tier
inside `[start, end)`, ordered by time ascending. -/
def GetAggregatedResults (st : StoreState) (targetID : Int) (windowSeconds : Int)
    (start end_ : Int) : List AggregatedResult :=
  List.insertionSort byTimeAgg
    (st.aggResults.filter fun r =>
      decide (r.targetID = targetID ∧ r.windowSeconds = windowSeconds ∧
        start ≤ r.time ∧ r.time < end_))

/-- `GetLastRollupTime` (unnamed/part_005): `SELECT MAX(time)` over one
target and tier; a NULL result scans to the zero time, modelled as `0`. -/
def GetLastRollupTime (st : StoreState) (targetID : Int) (windowSeconds : Int) : Int :=
  match (st.aggResults.filter fun r =>
      decide (r.targetID = targetID ∧ r.windowSeconds = windowSeconds)).map
        AggregatedResult.time with
  | [] => 0
  | t :: ts => ts.foldl max t

/-- `GetEarliestRawResultTime` (unnamed/part_005): `SELECT MIN(time)` over
one target; NULL scans to the zero time `0`. -/
def GetEarliestRawResultTime (st : StoreState) (targetID : Int) : Int :=
  match (st.rawResults.filter fun r => decide (r.targetID = targetID)).map
      RawResult.time with
  | [] => 0
  | t :: ts => ts.foldl min t

/-- The per-row insert loop of `AddRawResults`: `stmt.Exec` on each sample
in turn, stopping at the first failure.  `fail` injects the possible
SQLite error of each insert; `acc` is the table contents visible inside the
open transaction. -/
def execInserts (fail : RawResult → Option String) :
    List RawResult → List RawResult → Except String (List RawResult)
  | acc, [] => Except.ok acc
  | acc, r :: rs =>
    match fail r with
    | some e => Except.error e
    | none => execInserts fail (acc ++ [r]) rs

/-- `AddRawResults` (unnamed/part_005): empty batches return nil before a
transaction is opened; otherwise all rows are inserted inside one
transaction, and the first failing insert rolls the transaction back,
leaving the store unchanged and returning the error. -/
def AddRawResults (fail : RawResult → Option String) (st : StoreState)
    (results : List RawResult) : StoreState × Option String :=
  if results.length = 0 then (st, none)
  else
    match execInserts fail st.rawResults results with
    | Except.ok rows => ({ st with rawResults := rows }, none)
    | Except.error e => (st, some e)

/-- `DeleteTarget` (unnamed/part_005): two DELETE statements, one on the
legacy `results` table and one on `targets`.  No statement touches
`raw_results` or `aggregated_results`, and the schema declares their
foreign keys without ON DELETE CASCADE. -/
def DeleteTarget (st : StoreState) (id : Int) : StoreState :=
  let st := { st with results := st.results.filter fun r => decide ¬(r.targetID = id) }
  { st with targets := st.targets.filter fun t => decide ¬(t.id = id) }

/-- `DeleteRawResultsBefore` (unnamed/part_005):
`DELETE FROM raw_results WHERE target_id = ? AND time < ?`. -/
def DeleteRawResultsBefore (st : StoreState) (targetID : Int) (cutoff : Int) : StoreState :=
  { st with rawResults :=
      st.rawResults.filter fun r => decide ¬(r.targetID = targetID ∧ r.time < cutoff) }

/-- `DeleteAggregatedResultsBefore` (unnamed/part_005):
`DELETE FROM aggregated_results WHERE target_id = ? AND window_seconds = ?
AND time < ?`. -/
def DeleteAggregatedResultsBefore (st : StoreState) (targetID : Int) (windowSeconds : Int)
    (cutoff : Int) : StoreState :=
  { st with aggResults :=
      st.aggResults.filter fun r =>
        decide ¬(r.targetID = targetID ∧ r.windowSeconds = windowSeconds ∧ r.time < cutoff) }

/-! ### RollupManager (unnamed/part_003, current version: lines 496-741) -/

/-- `GetRetentionPolicies` as used by the retention manager and (in its
older inline form) by `enforceRetention`: fall back to `defaultPolicies`
when the stored column is absent, empty or unparseable, all of which the
model folds into the empty list. -/
def policiesFor (t : Target) : List RetentionPolicy :=
  if t.retentionPolicies = [] then defaultPolicies else t.retentionPolicies

/-- Go numeric conversion from `float64` to an integer type truncates
toward zero; this is the rational counterpart. -/
def ratTruncToInt (q : ℚ) : Int :=
  if 0 ≤ q then ⌊q⌋ else ⌈q⌉

/-- The rollup cutoff of `processTargetWindow`:
`rm.clock.Now().Add(-time.Duration(t.Timeout+3) * time.Second)`.
`time.Duration(t.Timeout+3)` truncates the float sum to a whole number
before it is scaled to seconds, so a fractional timeout loses its
fraction here. -/
def rollupCutoff (now : Int) (timeout : ℚ) : Int :=
  now - ratTruncToInt (timeout + 3)

/-- `earliest.Truncate(time.Duration(windowSeconds) * time.Second)`:
round the timestamp down to a whole multiple of the window size. -/
def truncTime (t : Int) (w : Int) : Int :=
  (Int.ediv t w) * w

/-- `createEmptyRollup`: an aggregated row carrying a serialized fresh
digest (compression 100) and a zero timeout count. -/
def createEmptyRollup (codec : TDigestCodec) (t : Target) (windowSeconds : Int)
    (start : Int) : AggregatedResult :=
  { time := start
    targetID := t.id
    windowSeconds := windowSeconds
    tdigestData := SerializeTDigest codec (TDigest.new 100)
    timeoutCount := 0 }

/-- The raw-source accumulation loop of `aggregateWindow`: walk the fetched
raw rows once, counting the `-1` sentinels and adding every other latency
to the digest. -/
def foldRawSample : TDigest × Int → RawResult → TDigest × Int
  | (td, cnt), r =>
    if r.latency = -1 then (td, cnt + 1) else (td.add r.latency, cnt)

/-- The sub-rollup accumulation loop of `aggregateWindow`: take each source
row, add its timeout count, and merge its digest when the blob is nonempty
and decodes; a failed decode is skipped. -/
def foldAggRow (codec : TDigestCodec) : TDigest × Int → AggregatedResult → TDigest × Int
  | (td, cnt), res =>
    let cnt := cnt + res.timeoutCount
    if res.tdigestData.length > 0 then
      match DeserializeTDigest codec res.tdigestData with
      | Except.ok sub => (td.mergeWith sub, cnt)
      | Except.error _ => (td, cnt)
    else (td, cnt)

/-- `aggregateWindow` (unnamed/part_003, lines 657-729): fetch the source
rows of `[start, end)` — raw samples when `sourceWindow = 0`, tier
`sourceWindow` rows otherwise — and build one aggregated row; an empty
source set still yields an empty-digest row via `createEmptyRollup`.
The model has no failing fetches or serializations, so the Go `nil`
returns on storage errors do not arise and the result is always `some`. -/
def aggregateWindow (codec : TDigestCodec) (st : StoreState) (t : Target)
    (windowSeconds sourceWindow : Int) (start end_ : Int) : Option AggregatedResult :=
  if sourceWindow = 0 then
    let raws := GetRawResults st t.id start end_ (-1)
    if raws = [] then some (createEmptyRollup codec t windowSeconds start)
    else
      let acc := raws.foldl foldRawSample (TDigest.new 100, 0)
      some { time := start
             targetID := t.id
             windowSeconds := windowSeconds
             tdigestData := SerializeTDigest codec acc.1
             timeoutCount := acc.2 }
  else
    let results := GetAggregatedResults st t.id sourceWindow start end_
    if results = [] then some (createEmptyRollup codec t windowSeconds start)
    else
      let acc := results.foldl (foldAggRow codec) (TDigest.new 100, 0)
      some { time := start
             targetID := t.id
             windowSeconds := windowSeconds
             tdigestData := SerializeTDigest codec acc.1
             timeoutCount := acc.2 }

/-- The window walk of `processTargetWindow`: starting at
`nextWindowStart = next`, emit `f start windowEnd` for each window whose
end does not pass the cutoff, advancing by one window each turn.  The
conjunct `0 < W` is the termination condition of the Go loop; the caller
`processRollups` only reaches this code with a positive window (the zero
window is skipped there and negative windows are rejected by
`ValidateRetentionPolicies` at write time). -/
def rollupLoop (f : Int → Int → Option AggregatedResult) (W cutoff : Int) (next : Int) :
    List AggregatedResult :=
  if _h : 0 < W ∧ next + W ≤ cutoff then
    (match f next (next + W) with
     | some agg => [agg]
     | none => []) ++ rollupLoop f W cutoff (next + W)
  else []
termination_by (cutoff - next).toNat
decreasing_by
  simp_wf
  omega

/-- `processTargetWindow` (unnamed/part_003, lines 585-655): find the last
rollup time of the tier; when it is the zero time, seed from the earliest
raw sample truncated to window alignment (and start at that very window);
otherwise continue one window after the last; then walk windows up to the
cutoff.  Returns the batch handed to `AddAggregatedResults`. -/
def processTargetWindow (codec : TDigestCodec) (st : StoreState) (now : Int) (t : Target)
    (windowSeconds sourceWindow : Int) : List AggregatedResult :=
  let lastTime := GetLastRollupTime st t.id windowSeconds
  let startOpt : Option Int :=
    if lastTime = 0 then
      let earliest := GetEarliestRawResultTime st t.id
      if earliest = 0 then none
      else some (truncTime earliest windowSeconds)
    else some lastTime
  match startOpt with
  | none => []
  | some start =>
    let nextWindowStart := if lastTime = 0 then start else start + windowSeconds
    let cutoff := rollupCutoff now t.timeout
    rollupLoop (fun a b => aggregateWindow codec st t windowSeconds sourceWindow a b)
      windowSeconds cutoff nextWindowStart

/-! ### RetentionManager (`enforceRetention`, rollup_test.go bundle lines 289-323) -/

/-- One policy step of `enforceRetention`: compute
`cutoff = now − retention` and delete the stale rows of the matching
tier — raw rows for `window = 0`, tier rows otherwise. -/
def enforcePolicy (now : Int) (targetID : Int) (st : StoreState) (p : RetentionPolicy) :
    StoreState :=
  let cutoff := now - p.retention
  if p.window = 0 then DeleteRawResultsBefore st targetID cutoff
  else DeleteAggregatedResultsBefore st targetID p.window cutoff

/-- The per-target loop of `enforceRetention`: apply every policy of the
target (defaults when none are stored) in order. -/
def enforceTargetRetention (now : Int) (st : StoreState) (t : Target) : StoreState :=
  (policiesFor t).foldl (enforcePolicy now t.id) st

/-- `enforceRetention`: iterate the target list fetched at the start of
the pass (deletes never touch the `targets` table, so folding over the
initial list matches the Go loop). -/
def enforceRetention (now : Int) (st : StoreState) : StoreState :=
  st.targets.foldl (enforceTargetRetention now) st

/-! ### Query planner and raw mode (`handleGetResults`, internal/web/server.go
lines 667-836, current version) -/

/-- The non-raw windows the handler collects from the target policies
(`availableWindows`), sorted ascending by `sort.Ints`. -/
def availableWindows (policies : List RetentionPolicy) : List Int :=
  List.insertionSort (· ≤ ·)
    ((policies.filter fun p => decide (0 < p.window)).map RetentionPolicy.window)

/-- The first pass of the window-selection loop: the first (hence, in a
sorted list, smallest) window at least `desired`, with the Go `-1`
sentinel when none qualifies. -/
def pickFirstAtLeast : List Int → Int → Int
  | [], _ => -1
  | w :: ws, desired => if desired ≤ w then w else pickFirstAtLeast ws desired

/-- The window-selection chain of `handleGetResults`: first window at
least `desired`; otherwise the largest available; otherwise the default
60. -/
def chooseWindow (avail : List Int) (desired : Int) : Int :=
  let window := pickFirstAtLeast avail desired
  let window :=
    if window = -1 then
      match avail.getLast? with
      | some w => w
      | none => window
    else window
  if window = -1 then 60 else window

/-- `desiredWindow := max(int(durationSeconds/1000.0), 1)`; the float
division truncates toward zero when converted to int. -/
def desiredWindow (durationSeconds : ℚ) : Int :=
  max (ratTruncToInt (durationSeconds / 1000)) 1

/-- The series-mode planning portion of `handleGetResults`: duration to
desired window to selected tier. -/
def planWindow (policies : List RetentionPolicy) (durationSeconds : ℚ) : Int :=
  chooseWindow (availableWindows policies) (desiredWindow durationSeconds)

/-- The output schema of the results endpoint (`web.APIResult`).  Fields a
handler leaves unset keep the Go zero value, reproduced by
`APIResult.zero` below. -/
structure APIResult where
  time : Int
  targetID : Int
  minNS : Int
  maxNS : Int
  avgNS : Int
  p0 : ℚ
  p1 : ℚ
  p25 : ℚ
  p50 : ℚ
  p75 : ℚ
  p99 : ℚ
  p100 : ℚ
  percentiles : List ℚ
  timeoutCount : Int
  probeCount : Int
  windowSeconds : Int
deriving Repr, DecidableEq

/-- The Go zero value of `APIResult` (numeric fields 0, nil slice). -/
def APIResult.zero : APIResult :=
  { time := 0, targetID := 0, minNS := 0, maxNS := 0, avgNS := 0,
    p0 := 0, p1 := 0, p25 := 0, p50 := 0, p75 := 0, p99 := 0, p100 := 0,
    percentiles := [], timeoutCount := 0, probeCount := 0, windowSeconds := 0 }

/-- The raw-mode struct literal of `handleGetResults`: only `Time`,
`TargetID`, `ProbeCount`, `MinNS`, `MaxNS`, `AvgNS`, `P0`, `P100` and `P50`
are set; every other field keeps its zero value. -/
def mkRawAPIResult (rr : RawResult) : APIResult :=
  { APIResult.zero with
    time := rr.time
    targetID := rr.targetID
    probeCount := 1
    minNS := ratTruncToInt rr.latency
    maxNS := ratTruncToInt rr.latency
    avgNS := ratTruncToInt rr.latency
    p0 := rr.latency
    p100 := rr.latency
    p50 := rr.latency }

/-- The `raw=true` branch of `handleGetResults`: fetch the first 1000 raw
samples of the range in ascending time order and map each through the
struct literal above. -/
def handleGetResultsRaw (st : StoreState) (id : Int) (start end_ : Int) : List APIResult :=
  (GetRawResults st id start end_ 1000).map mkRawAPIResult

/-! ### Scheduler probe recording -/

/-- Outcome of one `ProbeRunner.run` call, as classified by the spec
contract of section 4.2: a positive latency, a timeout, or another
transport error. -/
inductive ProbeOutcome where
  | success (latencyNS : ℚ)
  | timeout
  | transportFailure (msg : String)
deriving Repr, DecidableEq

/-- Modelled from the spec: the probe-completion handler of the current
Scheduler (spec section 4.3 step 4) is not under src/ — the tree carries
only the earlier in-memory-aggregation scheduler, while
scheduler_test.go and mocks_test.go exercise the current raw-sample
pipeline (TestScheduler_TimeoutLogic quotes its `val == -1.0` timeout
accounting).  Per the spec: success pushes the measured sample, a timeout
pushes the `-1` sentinel sample at the send timestamp, and any other
error drops the sample. -/
def runProbeRecord (sendTimestamp : Int) (targetID : Int) (outcome : ProbeOutcome) :
    Option RawResult :=
  match outcome with
  | ProbeOutcome.success l => some { time := sendTimestamp, targetID := targetID, latency := l }
  | ProbeOutcome.timeout => some { time := sendTimestamp, targetID := targetID, latency := -1 }
  | ProbeOutcome.transportFailure _ => none

/-! ### Concrete fixtures used by witnesses and counterexamples -/

/-- A concrete instance of the external codec, used to evaluate the rollup
model on closed inputs (the claims never depend on the byte layout). -/
def codec0 : TDigestCodec :=
  { serialize := fun _ => []
    fromBytes := fun _ => Except.error "external" }

/-- The empty database. -/
def emptyStore : StoreState :=
  { targets := [], results := [], rawResults := [], aggResults := [] }

/-- A target with one raw sample and one aggregated window on record. -/
def tgt7 : Target :=
  { id := 1, name := "t", address := "a", probeType := "http",
    probeInterval := 1, timeout := 5, retentionPolicies := [] }

/-- A raw sample belonging to `tgt7`. -/
def raw7 : RawResult := { time := 100, targetID := 1, latency := 42 }

/-- An aggregated window belonging to `tgt7`. -/
def agg7 : AggregatedResult :=
  { time := 60, targetID := 1, windowSeconds := 60, tdigestData := [], timeoutCount := 0 }

/-- Store holding `tgt7` together with its legacy row, raw sample and
aggregated window. -/
def st7 : StoreState :=
  { targets := [tgt7]
    results := [{ time := 100, targetID := 1, timeoutCount := 0, tdigestData := [] }]
    rawResults := [raw7]
    aggResults := [agg7] }

/-- A target with a fractional probe timeout (half a second) and a
one-second rollup tier. -/
def tgt2 : Target :=
  { id := 1, name := "frac", address := "a", probeType := "http",
    probeInterval := 1, timeout := 1 / 2,
    retentionPolicies := [⟨0, 604800⟩, ⟨1, 3600⟩] }

/-- Store with a single raw sample of `tgt2` at time 990. -/
def st2 : StoreState :=
  { targets := [tgt2], results := [], rawResults := [{ time := 990, targetID := 1, latency := 100 }],
    aggResults := [] }

/-- A target whose retention ladder is the one of end-to-end scenario 4 of
the spec: raw kept 10 s, tier 60 kept 20 s. -/
def tgt6 : Target :=
  { id := 1, name := "r", address := "a", probeType := "http",
    probeInterval := 1, timeout := 5, retentionPolicies := [⟨0, 10⟩, ⟨60, 20⟩] }

/-- Store for the retention scenario: one stale and one fresh raw sample,
one stale and one fresh tier-60 window. -/
def st6 : StoreState :=
  { targets := [tgt6]
    results := []
    rawResults := [{ time := 970, targetID := 1, latency := 1 },
                   { time := 995, targetID := 1, latency := 2 }]
    aggResults := [{ time := 970, targetID := 1, windowSeconds := 60, tdigestData := [],
                     timeoutCount := 0 },
                   { time := 990, targetID := 1, windowSeconds := 60, tdigestData := [],
                     timeoutCount := 0 }] }

/-- A retention ladder offering the windows 60, 300 and 3600 of end-to-end
scenario 6 of the spec. -/
def pol1 : List RetentionPolicy :=
  [⟨0, 604800⟩, ⟨60, 3600⟩, ⟨300, 3600⟩, ⟨3600, 3600⟩]

/-- A raw sample used to exercise the raw-mode endpoint. -/
def raw9 : RawResult := { time := 0, targetID := 1, latency := 100 }

/-- Store holding only `raw9`. -/
def st9 : StoreState :=
  { targets := [], results := [], rawResults := [raw9], aggResults := [] }

end VaporTrail

namespace VaporTrail

/-! ### C10: deserializing the empty blob -/

/-- C10: `DeserializeTDigest` applied to an empty byte slice returns a
fresh empty t-digest with compression 100 and no error, for every byte
codec of the external library; stored rows with an empty
`tdigest_data` blob therefore always decode successfully. -/
theorem deserializeTDigest_empty_blob (codec : TDigestCodec) :
    DeserializeTDigest codec [] = Except.ok (TDigest.new 100) ∧
    (TDigest.new 100).compression = 100 ∧ (TDigest.new 100).centroids = [] :=
  ⟨rfl, rfl, rfl⟩

/-! ### C8: probe outcome recording -/

/-- C8: for every admitted probe, a success records a raw sample carrying
the measured latency, a timeout records the sentinel `-1` sample at the
send timestamp, and any other error records nothing. -/
theorem runProbeRecord_cases (ts id : Int) :
    (∀ l, runProbeRecord ts id (ProbeOutcome.success l) =
      some { time := ts, targetID := id, latency := l }) ∧
    runProbeRecord ts id ProbeOutcome.timeout =
      some { time := ts, targetID := id, latency := -1 } ∧
    (∀ msg, runProbeRecord ts id (ProbeOutcome.transportFailure msg) = none) :=
  ⟨fun _ => rfl, rfl, fun _ => rfl⟩

/-! ### C5: atomicity of AddRawResults -/

/-- The insert loop succeeds exactly on batches with no failing row, and
then appends the batch in order. -/
theorem execInserts_ok (fail : RawResult → Option String) :
    ∀ (batch acc : List RawResult), (∀ r ∈ batch, fail r = none) →
      execInserts fail acc batch = Except.ok (acc ++ batch) := by
  intro batch
  induction batch with
  | nil => intro acc _; simp [execInserts]
  | cons r rs ih =>
    intro acc hall
    have hr : fail r = none := hall r (List.mem_cons_self r rs)
    have hrs : ∀ x ∈ rs, fail x = none := fun x hx => hall x (List.mem_cons_of_mem r hx)
    simp [execInserts, hr, ih (acc ++ [r]) hrs]

/-- The insert loop fails whenever some row of the batch fails. -/
theorem execInserts_error (fail : RawResult → Option String) :
    ∀ (batch acc : List RawResult), (∃ r ∈ batch, fail r ≠ none) →
      ∃ e, execInserts fail acc batch = Except.error e := by
  intro batch
  induction batch with
  | nil => intro acc h; rcases h with ⟨r, hr, _⟩; cases hr
  | cons r rs ih =>
    intro acc h
    cases hr : fail r with
    | some e => exact ⟨e, by simp [execInserts, hr]⟩
    | none =>
      rcases h with ⟨x, hx, hxf⟩
      rcases List.mem_cons.mp hx with rfl | hx2
      · exact absurd hr hxf
      · rcases ih (acc ++ [r]) ⟨x, hx2, hxf⟩ with ⟨e, he⟩
        exact ⟨e, by simp [execInserts, hr, he]⟩

/-- C5: `AddRawResults` is atomic.  An empty batch inserts nothing and
succeeds; a batch with no failing insert appends every sample and
succeeds; a batch with any failing insert leaves the store exactly as it
was and returns an error. -/
theorem addRawResults_atomic (fail : RawResult → Option String) (st : StoreState)
    (batch : List RawResult) :
    (batch = [] → AddRawResults fail st batch = (st, none)) ∧
    ((∀ r ∈ batch, fail r = none) →
      AddRawResults fail st batch = ({ st with rawResults := st.rawResults ++ batch }, none)) ∧
    ((∃ r ∈ batch, fail r ≠ none) → ∃ e, AddRawResults fail st batch = (st, some e)) := by
  refine ⟨fun h => by simp [AddRawResults, h], fun hall => ?_, fun hex => ?_⟩
  · by_cases hb : batch.length = 0
    · have : batch = [] := List.length_eq_zero.mp hb
      subst this
      simp [AddRawResults]
    · simp [AddRawResults, hb, execInserts_ok fail batch st.rawResults hall]
  · rcases hex with ⟨r, hr, hrf⟩
    have hb : batch.length ≠ 0 := by
      intro h
      rw [List.length_eq_zero.mp h] at hr
      cases hr
    rcases execInserts_error fail batch st.rawResults ⟨r, hr, hrf⟩ with ⟨e, he⟩
    exact ⟨e, by simp [AddRawResults, hb, he]⟩

/-- Witness for C5: a concrete two-sample batch with no failing insert is
fully appended, and the same batch against an always-failing insert leaves
the store untouched. -/
theorem addRawResults_atomic_witness :
    (∀ r ∈ [raw7, raw9], (fun (_ : RawResult) => (none : Option String)) r = none) ∧
    AddRawResults (fun _ => none) st7 [raw7, raw9] =
      ({ st7 with rawResults := st7.rawResults ++ [raw7, raw9] }, none) ∧
    ∃ e, AddRawResults (fun _ => some "disk full") st7 [raw7, raw9] = (st7, some e) :=
  ⟨fun _ _ => rfl,
   (addRawResults_atomic (fun _ => none) st7 [raw7, raw9]).2.1 (fun _ _ => rfl),
   (addRawResults_atomic (fun _ => some "disk full") st7 [raw7, raw9]).2.2
     ⟨raw7, by simp, by simp⟩⟩

/-! ### C7: DeleteTarget does not cascade to raw and aggregated rows -/

/-- C7 (divergence witness): deleting target 1 removes the target row and
its legacy results rows, but its raw sample and its aggregated window both
remain in the store — the two DELETE statements of `DeleteTarget` never
touch `raw_results` or `aggregated_results`, contradicting the cascade the
spec promises. -/
theorem deleteTarget_leaves_samples :
    (DeleteTarget st7 1).targets = [] ∧
    (DeleteTarget st7 1).results = [] ∧
    (DeleteTarget st7 1).rawResults = [raw7] ∧
    (DeleteTarget st7 1).aggResults = [agg7] := by
  refine ⟨?_, ?_, rfl, rfl⟩ <;> decide

/-! ### C6: retention enforcement -/

theorem mem_deleteRawBefore (st : StoreState) (tid cutoff : Int) (r : RawResult) :
    r ∈ (DeleteRawResultsBefore st tid cutoff).rawResults ↔
      r ∈ st.rawResults ∧ ¬(r.targetID = tid ∧ r.time < cutoff) := by
  simp [DeleteRawResultsBefore, List.mem_filter]
  tauto

theorem mem_deleteAggBefore (st : StoreState) (tid W cutoff : Int) (a : AggregatedResult) :
    a ∈ (DeleteAggregatedResultsBefore st tid W cutoff).aggResults ↔
      a ∈ st.aggResults ∧ ¬(a.targetID = tid ∧ a.windowSeconds = W ∧ a.time < cutoff) := by
  simp [DeleteAggregatedResultsBefore, List.mem_filter]
  tauto

theorem enforcePolicy_targets (now tid : Int) (st : StoreState) (p : RetentionPolicy) :
    (enforcePolicy now tid st p).targets = st.targets := by
  unfold enforcePolicy
  split <;> rfl

theorem mem_enforcePolicy_raw (now tid : Int) (st : StoreState) (p : RetentionPolicy)
    (r : RawResult) :
    r ∈ (enforcePolicy now tid st p).rawResults ↔
      r ∈ st.rawResults ∧
        ¬(p.window = 0 ∧ r.targetID = tid ∧ r.time < now - p.retention) := by
  unfold enforcePolicy
  by_cases h : p.window = 0
  · simp [h, mem_deleteRawBefore]
  · simp [h, DeleteAggregatedResultsBefore]

theorem mem_enforcePolicy_agg (now tid : Int) (st : StoreState) (p : RetentionPolicy)
    (a : AggregatedResult) :
    a ∈ (enforcePolicy now tid st p).aggResults ↔
      a ∈ st.aggResults ∧
        ¬(p.window ≠ 0 ∧ a.targetID = tid ∧ a.windowSeconds = p.window ∧
          a.time < now - p.retention) := by
  unfold enforcePolicy
  by_cases h : p.window = 0
  · simp [h, DeleteRawResultsBefore]
  · simp [h, mem_deleteAggBefore]

theorem mem_policies_foldl_raw (now tid : Int) (r : RawResult) :
    ∀ (ps : List RetentionPolicy) (st : StoreState),
      r ∈ ((ps.foldl (enforcePolicy now tid) st).rawResults) ↔
        r ∈ st.rawResults ∧
          ∀ p ∈ ps, ¬(p.window = 0 ∧ r.targetID = tid ∧ r.time < now - p.retention) := by
  intro ps
  induction ps with
  | nil => intro st; simp
  | cons p ps ih =>
    intro st
    rw [List.foldl_cons, ih, mem_enforcePolicy_raw]
    constructor
    · rintro ⟨⟨h1, h2⟩, h3⟩
      exact ⟨h1, fun q hq => by
        rcases List.mem_cons.mp hq with rfl | hq2
        · exact h2
        · exact h3 q hq2⟩
    · rintro ⟨h1, h2⟩
      exact ⟨⟨h1, h2 p (List.mem_cons_self p ps)⟩,
        fun q hq => h2 q (List.mem_cons_of_mem p hq)⟩

theorem mem_policies_foldl_agg (now tid : Int) (a : AggregatedResult) :
    ∀ (ps : List RetentionPolicy) (st : StoreState),
      a ∈ ((ps.foldl (enforcePolicy now tid) st).aggResults) ↔
        a ∈ st.aggResults ∧
          ∀ p ∈ ps, ¬(p.window ≠ 0 ∧ a.targetID = tid ∧ a.windowSeconds = p.window ∧
            a.time < now - p.retention) := by
  intro ps
  induction ps with
  | nil => intro st; simp
  | cons p ps ih =>
    intro st
    rw [List.foldl_cons, ih, mem_enforcePolicy_agg]
    constructor
    · rintro ⟨⟨h1, h2⟩, h3⟩
      exact ⟨h1, fun q hq => by
        rcases List.mem_cons.mp hq with rfl | hq2
        · exact h2
        · exact h3 q hq2⟩
    · rintro ⟨h1, h2⟩
      exact ⟨⟨h1, h2 p (List.mem_cons_self p ps)⟩,
        fun q hq => h2 q (List.mem_cons_of_mem p hq)⟩

theorem mem_targets_foldl_raw (now : Int) (r : RawResult) :
    ∀ (ts : List Target) (st : StoreState),
      r ∈ ((ts.foldl (enforceTargetRetention now) st).rawResults) ↔
        r ∈ st.rawResults ∧
          ∀ t ∈ ts, ∀ p ∈ policiesFor t,
            ¬(p.window = 0 ∧ r.targetID = t.id ∧ r.time < now - p.retention) := by
  intro ts
  induction ts with
  | nil => intro st; simp
  | cons t ts ih =>
    intro st
    rw [List.foldl_cons, ih]
    unfold enforceTargetRetention
    rw [mem_policies_foldl_raw]
    constructor
    · rintro ⟨⟨h1, h2⟩, h3⟩
      exact ⟨h1, fun u hu => by
        rcases List.mem_cons.mp hu with rfl | hu2
        · exact h2
        · exact h3 u hu2⟩
    · rintro ⟨h1, h2⟩
      exact ⟨⟨h1, h2 t (List.mem_cons_self t ts)⟩,
        fun u hu => h2 u (List.mem_cons_of_mem t hu)⟩

theorem mem_targets_foldl_agg (now : Int) (a : AggregatedResult) :
    ∀ (ts : List Target) (st : StoreState),
      a ∈ ((ts.foldl (enforceTargetRetention now) st).aggResults) ↔
        a ∈ st.aggResults ∧
          ∀ t ∈ ts, ∀ p ∈ policiesFor t,
            ¬(p.window ≠ 0 ∧ a.targetID = t.id ∧ a.windowSeconds = p.window ∧
              a.time < now - p.retention) := by
  intro ts
  induction ts with
  | nil => intro st; simp
  | cons t ts ih =>
    intro st
    rw [List.foldl_cons, ih]
    unfold enforceTargetRetention
    rw [mem_policies_foldl_agg]
    constructor
    · rintro ⟨⟨h1, h2⟩, h3⟩
      exact ⟨h1, fun u hu => by
        rcases List.mem_cons.mp hu with rfl | hu2
        · exact h2
        · exact h3 u hu2⟩
    · rintro ⟨h1, h2⟩
      exact ⟨⟨h1, h2 t (List.mem_cons_self t ts)⟩,
        fun u hu => h2 u (List.mem_cons_of_mem t hu)⟩

/-- C6: after a retention pass at time `now`, for every target and every
policy of that target, no raw row of the target older than the cutoff
remains when the policy covers the raw tier, and no aggregated row of
that tier older than the cutoff remains otherwise; rows not matched by any
delete predicate of any applicable policy — rows at or after the cutoff,
and rows of other tiers — survive the pass. -/
theorem enforceRetention_spec (now : Int) (st : StoreState) (t : Target)
    (p : RetentionPolicy) (ht : t ∈ st.targets) (hp : p ∈ policiesFor t) :
    (p.window = 0 → ∀ r ∈ (enforceRetention now st).rawResults,
      r.targetID = t.id → now - p.retention ≤ r.time) ∧
    (p.window ≠ 0 → ∀ a ∈ (enforceRetention now st).aggResults,
      a.targetID = t.id → a.windowSeconds = p.window → now - p.retention ≤ a.time) ∧
    (∀ r ∈ st.rawResults,
      (∀ u ∈ st.targets, ∀ q ∈ policiesFor u,
        ¬(q.window = 0 ∧ r.targetID = u.id ∧ r.time < now - q.retention)) →
      r ∈ (enforceRetention now st).rawResults) ∧
    (∀ a ∈ st.aggResults,
      (∀ u ∈ st.targets, ∀ q ∈ policiesFor u,
        ¬(q.window ≠ 0 ∧ a.targetID = u.id ∧ a.windowSeconds = q.window ∧
          a.time < now - q.retention)) →
      a ∈ (enforceRetention now st).aggResults) := by
  refine ⟨?_, ?_, ?_, ?_⟩
  · intro hw r hr htid
    have := ((mem_targets_foldl_raw now r st.targets st).mp hr).2 t ht p hp
    by_contra hlt
    exact this ⟨hw, htid, by omega⟩
  · intro hw a ha htid hws
    have := ((mem_targets_foldl_agg now a st.targets st).mp ha).2 t ht p hp
    by_contra hlt
    exact this ⟨hw, htid, hws, by omega⟩
  · intro r hr hok
    exact (mem_targets_foldl_raw now r st.targets st).mpr ⟨hr, hok⟩
  · intro a ha hok
    exact (mem_targets_foldl_agg now a st.targets st).mpr ⟨ha, hok⟩

/-! ### Rollup loop lemmas (C2, C3, C4) -/

/-- Every row emitted by the window walk comes from some start
`next + k·W` whose window still closes at or before the cutoff; a nonempty
walk also certifies that the window size is positive. -/
theorem mem_rollupLoop (f : Int → Int → Option AggregatedResult) (W cutoff : Int) :
    ∀ (next : Int) (a : AggregatedResult), a ∈ rollupLoop f W cutoff next →
      ∃ k : ℕ, 0 < W ∧ next + k * W + W ≤ cutoff ∧
        f (next + k * W) (next + k * W + W) = some a := by
  intro next a h
  by_cases hg : 0 < W ∧ next + W ≤ cutoff
  · rw [rollupLoop, dif_pos hg] at h
    rcases List.mem_append.mp h with h1 | h2
    · refine ⟨0, hg.1, ?_, ?_⟩
      · simpa using hg.2
      · cases hf : f next (next + W) with
        | none => rw [hf] at h1; cases h1
        | some b =>
          rw [hf] at h1
          simp at h1
          subst h1
          simpa using hf
    · obtain ⟨k, hk0, hk1, hk2⟩ := mem_rollupLoop f W cutoff (next + W) a h2
      refine ⟨k + 1, hk0, ?_, ?_⟩
      · have : next + (↑(k + 1) : ℤ) * W = next + W + (k : ℤ) * W := by push_cast; ring
        omega
      · have : next + (↑(k + 1) : ℤ) * W = next + W + (k : ℤ) * W := by push_cast; ring
        rw [this]
        exact hk2
  · rw [rollupLoop, dif_neg hg] at h
    cases h
termination_by next => (cutoff - next).toNat
decreasing_by
  simp_wf
  omega

/-- When the emitted rows carry their window start as timestamp, the walk
produces strictly increasing start times. -/
theorem rollupLoop_pairwise (f : Int → Int → Option AggregatedResult) (W cutoff : Int)
    (hf : ∀ s a, f s (s + W) = some a → a.time = s) :
    ∀ next : Int,
      ((rollupLoop f W cutoff next).map AggregatedResult.time).Pairwise (· < ·) := by
  intro next
  by_cases hg : 0 < W ∧ next + W ≤ cutoff
  · rw [rollupLoop, dif_pos hg]
    rw [List.map_append]
    apply List.pairwise_append.mpr
    refine ⟨?_, rollupLoop_pairwise f W cutoff hf (next + W), ?_⟩
    · cases hfv : f next (next + W) <;> simp
    · intro x hx y hy
      cases hfv : f next (next + W) with
      | none => rw [hfv] at hx; cases hx
      | some b =>
        rw [hfv] at hx
        simp at hx
        subst hx
        have hb : b.time = next := hf next b hfv
        rw [List.mem_map] at hy
        obtain ⟨c, hc, rfl⟩ := hy
        obtain ⟨k, hk0, hk1, hk2⟩ := mem_rollupLoop f W cutoff (next + W) c hc
        have hc2 : c.time = next + W + k * W := hf _ c hk2
        have hkW : 0 ≤ (k : ℤ) * W := by positivity
        omega
  · rw [rollupLoop, dif_neg hg]
    simp
termination_by next => (cutoff - next).toNat
decreasing_by
  simp_wf
  omega

/-- The walk emits the row its first window produces. -/
theorem rollupLoop_mem_head (f : Int → Int → Option AggregatedResult) (W cutoff next : Int)
    (a : AggregatedResult) (hW : 0 < W) (hle : next + W ≤ cutoff)
    (hfv : f next (next + W) = some a) : a ∈ rollupLoop f W cutoff next := by
  rw [rollupLoop, dif_pos ⟨hW, hle⟩, hfv]
  simp

/-- Rows emitted after the first window are emitted by the whole walk. -/
theorem rollupLoop_mem_tail (f : Int → Int → Option AggregatedResult) (W cutoff next : Int)
    (a : AggregatedResult) (hW : 0 < W) (hle : next + W ≤ cutoff)
    (h : a ∈ rollupLoop f W cutoff (next + W)) : a ∈ rollupLoop f W cutoff next := by
  rw [rollupLoop, dif_pos ⟨hW, hle⟩]
  exact List.mem_append.mpr (Or.inr h)

/-- Whatever `aggregateWindow` emits is stamped with the window start. -/
theorem aggregateWindow_time_eq (codec : TDigestCodec) (st : StoreState) (t : Target)
    (W S s e : Int) (a : AggregatedResult)
    (h : aggregateWindow codec st t W S s e = some a) : a.time = s := by
  unfold aggregateWindow at h
  by_cases hS : S = 0 <;>
    simp only [hS, if_true, if_false, ite_true, ite_false] at h <;>
    split at h <;>
    (injection h with h2; subst h2; rfl)

/-- `processTargetWindow` either does nothing (no prior rollup and no raw
data) or runs the window walk from a start that is the truncated earliest
raw time on first run, or one window past the recorded last rollup time
otherwise. -/
theorem processTargetWindow_eq_loop (codec : TDigestCodec) (st : StoreState) (now : Int)
    (t : Target) (W S : Int) :
    processTargetWindow codec st now t W S = [] ∨
    ∃ next,
      processTargetWindow codec st now t W S =
        rollupLoop (fun a b => aggregateWindow codec st t W S a b) W
          (rollupCutoff now t.timeout) next ∧
      (next = truncTime (GetEarliestRawResultTime st t.id) W ∨
        (next = GetLastRollupTime st t.id W + W ∧ GetLastRollupTime st t.id W ≠ 0)) := by
  unfold processTargetWindow
  by_cases h0 : GetLastRollupTime st t.id W = 0
  · by_cases h1 : GetEarliestRawResultTime st t.id = 0
    · left
      simp [h0, h1]
    · right
      exact ⟨truncTime (GetEarliestRawResultTime st t.id) W, by simp [h0, h1], Or.inl rfl⟩
  · right
    exact ⟨GetLastRollupTime st t.id W + W, by simp [h0], Or.inr ⟨rfl, h0⟩⟩

/-- A fold of binary maxima lands on its seed or on a list element. -/
theorem foldl_max_mem (l : List Int) (a : Int) : l.foldl max a = a ∨ l.foldl max a ∈ l := by
  induction l generalizing a with
  | nil => left; rfl
  | cons h t ih =>
    rcases ih (max a h) with h1 | h1
    · rcases max_choice a h with h2 | h2
      · left; rw [List.foldl_cons, h1, h2]
      · right; rw [List.foldl_cons, h1, h2]; exact List.mem_cons_self h t
    · right; exact List.mem_cons_of_mem h h1

/-- If every stored row of the tier is aligned then the recorded last
rollup time (a maximum over those rows, or the zero time) is aligned. -/
theorem dvd_getLastRollupTime (st : StoreState) (tid W : Int)
    (hst : ∀ a ∈ st.aggResults, a.targetID = tid → a.windowSeconds = W → W ∣ a.time) :
    W ∣ GetLastRollupTime st tid W := by
  have hall : ∀ x ∈ (st.aggResults.filter fun r =>
      decide (r.targetID = tid ∧ r.windowSeconds = W)).map AggregatedResult.time, W ∣ x := by
    intro x hx
    rw [List.mem_map] at hx
    obtain ⟨row, hrow, rfl⟩ := hx
    rw [List.mem_filter] at hrow
    have hprops := of_decide_eq_true hrow.2
    exact hst row hrow.1 hprops.1 hprops.2
  unfold GetLastRollupTime
  revert hall
  generalize (st.aggResults.filter fun r =>
    decide (r.targetID = tid ∧ r.windowSeconds = W)).map AggregatedResult.time = rows
  intro hall
  cases rows with
  | nil => exact dvd_zero W
  | cons x xs =>
    show W ∣ xs.foldl max x
    rcases foldl_max_mem xs x with h1 | h1
    · rw [h1]
      exact hall x (List.mem_cons_self x xs)
    · exact hall _ (List.mem_cons_of_mem x h1)

/-- Reaching a window several steps into the walk implies membership in the
whole walk, as long as that window still closes before the cutoff. -/
theorem rollupLoop_mem_iter (f : Int → Int → Option AggregatedResult) (W cutoff : Int)
    (hW : 0 < W) :
    ∀ (n : ℕ) (next : Int) (a : AggregatedResult),
      next + n * W + W ≤ cutoff → a ∈ rollupLoop f W cutoff (next + n * W) →
      a ∈ rollupLoop f W cutoff next := by
  intro n
  induction n with
  | zero => intro next a h1 h2; simpa using h2
  | succ n ih =>
    intro next a h1 h2
    have hc : (↑(n + 1) : ℤ) * W = ↑n * W + W := by push_cast; ring
    have hn0 : 0 ≤ (n : ℤ) * W := by positivity
    apply rollupLoop_mem_tail f W cutoff next a hW (by omega)
    apply ih (next + W) a (by omega)
    have : next + W + ↑n * W = next + ↑(n + 1) * W := by omega
    rw [this]
    exact h2

/-- C2 (amended): on every tick, every window the RollupManager emits for a
tier closes at or before the cutoff `now − ⌊target.timeout + 3⌋ seconds`
(the float timeout is truncated to whole seconds by the Go duration
conversion), and the windows are emitted in strictly increasing start
order. -/
theorem rollup_windows_respect_cutoff (codec : TDigestCodec) (st : StoreState) (now : Int)
    (t : Target) (W S : Int) :
    (∀ a ∈ processTargetWindow codec st now t W S,
      a.time + W ≤ rollupCutoff now t.timeout) ∧
    ((processTargetWindow codec st now t W S).map AggregatedResult.time).Pairwise (· < ·) := by
  have hf : ∀ s a, aggregateWindow codec st t W S s (s + W) = some a → a.time = s :=
    fun s a h => aggregateWindow_time_eq codec st t W S s (s + W) a h
  rcases processTargetWindow_eq_loop codec st now t W S with heq | ⟨next, heq, _⟩
  · rw [heq]
    exact ⟨fun a ha => absurd ha (List.not_mem_nil a), List.Pairwise.nil⟩
  · rw [heq]
    constructor
    · intro a ha
      obtain ⟨k, hk0, hk1, hk2⟩ := mem_rollupLoop _ W (rollupCutoff now t.timeout) next a ha
      have := hf _ a hk2
      omega
    · exact rollupLoop_pairwise _ W (rollupCutoff now t.timeout) hf next

/-- Witness for C2 (amended): the amended bound holds on a concrete store
and target. -/
theorem rollup_windows_respect_cutoff_witness :
    (∀ a ∈ processTargetWindow codec0 st7 1000 tgt7 60 0,
      a.time + 60 ≤ rollupCutoff 1000 tgt7.timeout) ∧
    ((processTargetWindow codec0 st7 1000 tgt7 60 0).map AggregatedResult.time).Pairwise
      (· < ·) :=
  rollup_windows_respect_cutoff codec0 st7 1000 tgt7 60 0

/-- C2 (counterexample): with a fractional probe timeout (here half a
second) the duration conversion `time.Duration(t.Timeout+3)` drops the
fraction, so the walk closes a window whose end lies strictly after
`now − (target.timeout + 3 s)` as the claim states the cutoff. -/
theorem rollup_cutoff_counterexample :
    ∃ a ∈ processTargetWindow codec0 st2 1000 tgt2 1 0,
      (1000 : ℚ) - (tgt2.timeout + 3) < (a.time : ℚ) + 1 := by
  have hpe : processTargetWindow codec0 st2 1000 tgt2 1 0 =
      rollupLoop (fun a b => aggregateWindow codec0 st2 tgt2 1 0 a b) 1 997 990 := by
    have h1 : GetLastRollupTime st2 tgt2.id 1 = 0 := by decide
    have h2 : GetEarliestRawResultTime st2 tgt2.id = 990 := by decide
    have h3 : truncTime 990 1 = 990 := by decide
    have h4 : rollupCutoff 1000 tgt2.timeout = 997 := by
      show (1000 : Int) - ratTruncToInt (tgt2.timeout + 3) = 997
      have ht : tgt2.timeout + 3 = (7 : ℚ) / 2 := by norm_num [tgt2]
      rw [ht]
      rw [ratTruncToInt, if_pos (by norm_num)]
      norm_num
    unfold processTargetWindow
    rw [h1, h2, h4]
    simp [h3]
  refine ⟨createEmptyRollup codec0 tgt2 1 996, ?_, ?_⟩
  · rw [hpe]
    have h996 : createEmptyRollup codec0 tgt2 1 996 ∈
        rollupLoop (fun a b => aggregateWindow codec0 st2 tgt2 1 0 a b) 1 997 (990 + (6 : ℕ) * 1) := by
      apply rollupLoop_mem_head _ 1 997 (990 + (6 : ℕ) * 1) _ one_pos (by norm_num)
      norm_num
      rfl
    exact rollupLoop_mem_iter _ 1 997 one_pos 6 990 _ (by norm_num) h996
  · norm_num [tgt2, createEmptyRollup]

/-- C3: when the fetched source set of a window is empty — raw samples for
a raw source, aggregated rows for a coarser source — the RollupManager
still emits an aggregated row at that window start, carrying a serialized
fresh t-digest of compression 100 and a timeout count of zero. -/
theorem aggregateWindow_empty_source (codec : TDigestCodec) (st : StoreState) (t : Target)
    (W S s e : Int) :
    (S = 0 → GetRawResults st t.id s e (-1) = [] →
      aggregateWindow codec st t W S s e = some (createEmptyRollup codec t W s)) ∧
    (S ≠ 0 → GetAggregatedResults st t.id S s e = [] →
      aggregateWindow codec st t W S s e = some (createEmptyRollup codec t W s)) ∧
    (createEmptyRollup codec t W s).time = s ∧
    (createEmptyRollup codec t W s).tdigestData = SerializeTDigest codec (TDigest.new 100) ∧
    (createEmptyRollup codec t W s).timeoutCount = 0 := by
  refine ⟨?_, ?_, rfl, rfl, rfl⟩
  · intro h1 h2
    simp [aggregateWindow, h1, h2]
  · intro h1 h2
    simp [aggregateWindow, h1, h2]

/-- Witness for C3: a window with no raw samples in range still emits the
empty-digest row. -/
theorem aggregateWindow_empty_source_witness :
    ((0 : Int) = 0) ∧ GetRawResults emptyStore tgt7.id 0 60 (-1) = [] ∧
    aggregateWindow codec0 emptyStore tgt7 60 0 0 60 =
      some (createEmptyRollup codec0 tgt7 60 0) :=
  ⟨rfl, rfl, (aggregateWindow_empty_source codec0 emptyStore tgt7 60 0 0 60).1 rfl rfl⟩

/-- C4: if every stored window of the tier is aligned to a multiple of the
window size, then so is every window the RollupManager emits for it — the
first window is seeded by truncating the earliest raw time to a multiple
of the window size, and every later start is the previous start plus the
window size — so alignment is preserved across the whole store. -/
theorem rollup_alignment (codec : TDigestCodec) (st : StoreState) (now : Int) (t : Target)
    (W S : Int)
    (hst : ∀ a ∈ st.aggResults, a.targetID = t.id → a.windowSeconds = W → W ∣ a.time) :
    ∀ a ∈ st.aggResults ++ processTargetWindow codec st now t W S,
      a.targetID = t.id → a.windowSeconds = W → W ∣ a.time := by
  intro a ha h1 h2
  rcases List.mem_append.mp ha with hold | hnew
  · exact hst a hold h1 h2
  · rcases processTargetWindow_eq_loop codec st now t W S with heq | ⟨next, heq, hnextEq⟩
    · rw [heq] at hnew
      cases hnew
    · rw [heq] at hnew
      obtain ⟨k, hk0, hk1, hk2⟩ := mem_rollupLoop _ W _ next a hnew
      have htime : a.time = next + k * W := aggregateWindow_time_eq codec st t W S _ _ a hk2
      have hnextDvd : W ∣ next := by
        rcases hnextEq with h | ⟨h, _⟩
        · rw [h]
          exact dvd_mul_left W _
        · rw [h]
          exact (dvd_getLastRollupTime st t.id W hst).add dvd_rfl
      rw [htime]
      exact hnextDvd.add (dvd_mul_left W _)

/-- Witness for C4: a store whose single tier-60 row sits at time 60
(aligned) keeps every window of a fresh rollup pass aligned. -/
theorem rollup_alignment_witness :
    (∀ a ∈ st7.aggResults, a.targetID = tgt7.id → a.windowSeconds = 60 → (60 : Int) ∣ a.time) ∧
    (∀ a ∈ st7.aggResults ++ processTargetWindow codec0 st7 1000 tgt7 60 0,
      a.targetID = tgt7.id → a.windowSeconds = 60 → (60 : Int) ∣ a.time) :=
  ⟨by decide, rollup_alignment codec0 st7 1000 tgt7 60 0 (by decide)⟩

/-- Witness for C6: the scenario-4 ladder on a concrete store, raw-tier
policy discharged by evaluation. -/
theorem enforceRetention_spec_witness :
    tgt6 ∈ st6.targets ∧ (⟨0, 10⟩ : RetentionPolicy) ∈ policiesFor tgt6 ∧
    ((⟨0, 10⟩ : RetentionPolicy).window = 0 →
      ∀ r ∈ (enforceRetention 1000 st6).rawResults,
        r.targetID = tgt6.id → 1000 - (⟨0, 10⟩ : RetentionPolicy).retention ≤ r.time) :=
  ⟨by decide, by decide,
   (enforceRetention_spec 1000 st6 tgt6 ⟨0, 10⟩ (by decide) (by decide)).1⟩

/-! ### C1: query planner window selection -/

/-- Every window the handler collects is positive (the raw tier is
filtered out). -/
theorem availableWindows_pos (policies : List RetentionPolicy) :
    ∀ w ∈ availableWindows policies, 0 < w := by
  intro w hw
  unfold availableWindows at hw
  rw [List.mem_insertionSort, List.mem_map] at hw
  obtain ⟨p, hp, rfl⟩ := hw
  rw [List.mem_filter] at hp
  exact of_decide_eq_true hp.2

/-- The collected windows are sorted ascending by `sort.Ints`. -/
theorem availableWindows_sorted (policies : List RetentionPolicy) :
    (availableWindows policies).Sorted (· ≤ ·) :=
  List.sorted_insertionSort _ _

/-- In a sorted list, the first element at least `d` is the least such
element; the `-1` sentinel signals that no element qualifies. -/
theorem pickFirstAtLeast_spec (d : Int) : ∀ (l : List Int), l.Sorted (· ≤ ·) →
    (pickFirstAtLeast l d = -1 ∧ ∀ w ∈ l, w < d) ∨
    (pickFirstAtLeast l d ∈ l ∧ d ≤ pickFirstAtLeast l d ∧
      ∀ w ∈ l, d ≤ w → pickFirstAtLeast l d ≤ w) := by
  intro l
  induction l with
  | nil => intro _; left; exact ⟨rfl, by simp⟩
  | cons x xs ih =>
    intro hs
    by_cases hx : d ≤ x
    · right
      simp only [pickFirstAtLeast, if_pos hx]
      refine ⟨List.mem_cons_self x xs, hx, ?_⟩
      intro w hw _
      rcases List.mem_cons.mp hw with rfl | hw2
      · exact le_refl w
      · exact (List.sorted_cons.mp hs).1 w hw2
    · simp only [pickFirstAtLeast, if_neg hx]
      rcases ih (List.Sorted.of_cons hs) with ⟨h1, h2⟩ | ⟨h1, h2, h3⟩
      · left
        refine ⟨h1, fun w hw => ?_⟩
        rcases List.mem_cons.mp hw with rfl | hw2
        · omega
        · exact h2 w hw2
      · right
        refine ⟨List.mem_cons_of_mem x h1, h2, ?_⟩
        intro w hw hdw
        rcases List.mem_cons.mp hw with rfl | hw2
        · omega
        · exact h3 w hw2 hdw

/-- The last element of a sorted list is its maximum. -/
theorem sorted_getLast?_max : ∀ (l : List Int), l.Sorted (· ≤ ·) →
    (l = [] ∧ l.getLast? = none) ∨
    (∃ m, l.getLast? = some m ∧ m ∈ l ∧ ∀ w ∈ l, w ≤ m) := by
  intro l
  induction l with
  | nil => intro _; left; exact ⟨rfl, rfl⟩
  | cons x xs ih =>
    intro hs
    right
    rcases ih (List.Sorted.of_cons hs) with ⟨hnil, _⟩ | ⟨m, hm1, hm2, hm3⟩
    · subst hnil
      exact ⟨x, rfl, List.mem_singleton_self x, by simp⟩
    · have hxs : xs ≠ [] := by
        intro h
        rw [h] at hm2
        cases hm2
      refine ⟨m, ?_, List.mem_cons_of_mem x hm2, ?_⟩
      · cases xs with
        | nil => exact absurd rfl hxs
        | cons y ys => rw [List.getLast?_cons_cons, hm1]
      · intro w hw
        rcases List.mem_cons.mp hw with rfl | hw2
        · exact (List.sorted_cons.mp hs).1 m hm2
        · exact hm3 w hw2

/-- The selection chain: the least window at or above `d`, else the
largest available window, else 60. -/
theorem chooseWindow_cases (avail : List Int) (d : Int) (hpos : ∀ w ∈ avail, 0 < w)
    (hs : avail.Sorted (· ≤ ·)) :
    (avail = [] ∧ chooseWindow avail d = 60) ∨
    (chooseWindow avail d ∈ avail ∧ d ≤ chooseWindow avail d ∧
      ∀ w ∈ avail, d ≤ w → chooseWindow avail d ≤ w) ∨
    ((∀ w ∈ avail, w < d) ∧ chooseWindow avail d ∈ avail ∧
      ∀ w ∈ avail, w ≤ chooseWindow avail d) := by
  rcases pickFirstAtLeast_spec d avail hs with ⟨h1, h2⟩ | ⟨h1, h2, h3⟩
  · rcases sorted_getLast?_max avail hs with ⟨hnil, hnone⟩ | ⟨m, hm1, hm2, hm3⟩
    · left
      exact ⟨hnil, by simp [chooseWindow, h1, hnone]⟩
    · right; right
      have hmne : m ≠ -1 := by
        have := hpos m hm2
        omega
      have hcw : chooseWindow avail d = m := by
        simp [chooseWindow, h1, hm1, hmne]
      rw [hcw]
      exact ⟨h2, hm2, hm3⟩
  · right; left
    have hne : pickFirstAtLeast avail d ≠ -1 := by
      have := hpos _ h1
      omega
    have hcw : chooseWindow avail d = pickFirstAtLeast avail d := by
      simp [chooseWindow, hne]
    rw [hcw]
    exact ⟨h1, h2, h3⟩

/-- The Go truncation `int(durationSeconds/1000.0)` and the floor of the
claim agree once clamped to at least 1. -/
theorem desiredWindow_eq_floor (D : ℚ) : desiredWindow D = max 1 ⌊D / 1000⌋ := by
  unfold desiredWindow ratTruncToInt
  by_cases h : 0 ≤ D / 1000
  · rw [if_pos h, max_comm]
  · rw [if_neg h]
    have h1 : ⌈D / 1000⌉ ≤ 0 := by
      rw [Int.ceil_le]
      push_cast
      exact le_of_lt (lt_of_not_le h)
    have h2 : ⌊D / 1000⌋ ≤ 0 := le_trans (Int.floor_le_ceil _) h1
    rw [max_eq_right (by omega : ⌈D / 1000⌉ ≤ 1), max_eq_left (by omega : ⌊D / 1000⌋ ≤ 1)]

/-- C1: for a series query of duration `D` seconds over a target whose
non-raw window set is `A` (sorted), the planner picks the smallest
`w ∈ A` with `w ≥ max(1, ⌊D/1000⌋)`; when no element of `A` is that
large it picks the largest element of `A`; and when `A` is empty it picks
60. -/
theorem planner_selection (policies : List RetentionPolicy) (D : ℚ) :
    ((∃ w ∈ availableWindows policies, max 1 ⌊D / 1000⌋ ≤ w) →
      planWindow policies D ∈ availableWindows policies ∧
      max 1 ⌊D / 1000⌋ ≤ planWindow policies D ∧
      ∀ w ∈ availableWindows policies,
        max 1 ⌊D / 1000⌋ ≤ w → planWindow policies D ≤ w) ∧
    ((∀ w ∈ availableWindows policies, w < max 1 ⌊D / 1000⌋) →
      availableWindows policies ≠ [] →
      planWindow policies D ∈ availableWindows policies ∧
      ∀ w ∈ availableWindows policies, w ≤ planWindow policies D) ∧
    (availableWindows policies = [] → planWindow policies D = 60) := by
  have hdes : desiredWindow D = max 1 ⌊D / 1000⌋ := desiredWindow_eq_floor D
  have hcase := chooseWindow_cases (availableWindows policies) (desiredWindow D)
    (availableWindows_pos policies) (availableWindows_sorted policies)
  have hplan : planWindow policies D = chooseWindow (availableWindows policies)
      (desiredWindow D) := rfl
  refine ⟨?_, ?_, ?_⟩
  · rintro ⟨w, hw, hdw⟩
    rcases hcase with ⟨hnil, _⟩ | ⟨hm, hd, hmin⟩ | ⟨hall, _, _⟩
    · rw [hnil] at hw
      cases hw
    · rw [hplan, ← hdes]
      exact ⟨hm, hd, fun v hv hdv => hmin v hv (hdes ▸ hdv)⟩
    · have := hall w hw
      rw [← hdes] at hdw
      omega
  · intro hall hne
    rcases hcase with ⟨hnil, _⟩ | ⟨hm, hd, _⟩ | ⟨_, hm, hmax⟩
    · exact absurd hnil hne
    · have := hall _ hm
      rw [← hdes] at this
      omega
    · rw [hplan]
      exact ⟨hm, hmax⟩
  · intro hnil
    rcases hcase with ⟨_, h60⟩ | ⟨hm, _, _⟩ | ⟨_, hm, _⟩
    · rw [hplan]
      exact h60
    · rw [hnil] at hm
      cases hm
    · rw [hnil] at hm
      cases hm

/-- Witness for C1: scenario 6 of the spec — windows 60, 300, 3600 and a
600-second query select tier 60 (the least window at or above the desired
1 s). -/
theorem planner_selection_witness :
    (∃ w ∈ availableWindows pol1, max 1 ⌊(600 : ℚ) / 1000⌋ ≤ w) ∧
    (planWindow pol1 600 ∈ availableWindows pol1 ∧
     max 1 ⌊(600 : ℚ) / 1000⌋ ≤ planWindow pol1 600 ∧
     ∀ w ∈ availableWindows pol1,
       max 1 ⌊(600 : ℚ) / 1000⌋ ≤ w → planWindow pol1 600 ≤ w) := by
  have hfl : ⌊(600 : ℚ) / 1000⌋ = 0 := by norm_num
  have hex : ∃ w ∈ availableWindows pol1, max 1 ⌊(600 : ℚ) / 1000⌋ ≤ w := by
    refine ⟨60, ?_, ?_⟩
    · decide
    · rw [hfl]
      decide
  exact ⟨hex, (planner_selection pol1 600).1 hex⟩

/-! ### C9: raw mode output -/

/-- C9 (amended): raw mode returns at most the first 1000 raw samples of
the range in ascending time order; each output point carries
`probe_count = 1` and has `P0`, `P50` and `P100` (as well as the
truncated `MinNS`, `MaxNS`, `AvgNS`) equal to the sample latency, while
the remaining percentile fields `P1`, `P25`, `P75`, `P99` stay at the zero
value and the 21-entry percentile grid stays empty. -/
theorem raw_mode_output (st : StoreState) (id start end_ : Int) :
    (handleGetResultsRaw st id start end_).length ≤ 1000 ∧
    ((handleGetResultsRaw st id start end_).map APIResult.time).Sorted (· ≤ ·) ∧
    ∀ a ∈ handleGetResultsRaw st id start end_, ∃ rr ∈ st.rawResults,
      rr.targetID = id ∧ start ≤ rr.time ∧ rr.time < end_ ∧
      a = mkRawAPIResult rr ∧ a.probeCount = 1 ∧
      a.minNS = ratTruncToInt rr.latency ∧ a.maxNS = ratTruncToInt rr.latency ∧
      a.avgNS = ratTruncToInt rr.latency ∧
      a.p0 = rr.latency ∧ a.p50 = rr.latency ∧ a.p100 = rr.latency ∧
      a.p1 = 0 ∧ a.p25 = 0 ∧ a.p75 = 0 ∧ a.p99 = 0 ∧ a.percentiles = [] := by
  have hrows : GetRawResults st id start end_ 1000 =
      (List.insertionSort byTimeRaw
        (st.rawResults.filter fun r =>
          decide (r.targetID = id ∧ start ≤ r.time ∧ r.time < end_))).take 1000 := rfl
  refine ⟨?_, ?_, ?_⟩
  · unfold handleGetResultsRaw
    rw [List.length_map, hrows]
    exact List.length_take_le 1000 _
  · unfold handleGetResultsRaw
    rw [List.map_map, hrows]
    exact List.Pairwise.map _ (fun a b h => h)
      (List.Pairwise.sublist (List.take_sublist 1000 _)
        (List.sorted_insertionSort byTimeRaw _))
  · intro a ha
    unfold handleGetResultsRaw at ha
    rw [List.mem_map] at ha
    obtain ⟨rr, hrr, rfl⟩ := ha
    rw [hrows] at hrr
    have hrr2 := List.mem_of_mem_take hrr
    rw [List.mem_insertionSort, List.mem_filter] at hrr2
    have hprops := of_decide_eq_true hrr2.2
    exact ⟨rr, hrr2.1, hprops.1, hprops.2.1, hprops.2.2, rfl, rfl, rfl, rfl, rfl,
      rfl, rfl, rfl, rfl, rfl, rfl, rfl, rfl⟩

/-- Witness for C9 (amended): the single-sample store evaluated through
the raw endpoint. -/
theorem raw_mode_output_witness :
    (handleGetResultsRaw st9 1 0 10).length ≤ 1000 ∧
    ((handleGetResultsRaw st9 1 0 10).map APIResult.time).Sorted (· ≤ ·) ∧
    ∀ a ∈ handleGetResultsRaw st9 1 0 10, ∃ rr ∈ st9.rawResults,
      rr.targetID = 1 ∧ 0 ≤ rr.time ∧ rr.time < 10 ∧
      a = mkRawAPIResult rr ∧ a.probeCount = 1 ∧
      a.minNS = ratTruncToInt rr.latency ∧ a.maxNS = ratTruncToInt rr.latency ∧
      a.avgNS = ratTruncToInt rr.latency ∧
      a.p0 = rr.latency ∧ a.p50 = rr.latency ∧ a.p100 = rr.latency ∧
      a.p1 = 0 ∧ a.p25 = 0 ∧ a.p75 = 0 ∧ a.p99 = 0 ∧ a.percentiles = [] :=
  raw_mode_output st9 1 0 10

/-- C9 (counterexample): on a store holding one raw sample of latency 100,
the raw-mode output point has `P50 = 100` but `P25 = 0 ≠ 100` and
`P99 = 0 ≠ 100`, and its percentile grid is empty rather than a 21-entry
grid of the latency — the handler only copies the latency into `P0`,
`P50` and `P100`. -/
theorem raw_mode_counterexample :
    ∃ r ∈ handleGetResultsRaw st9 1 0 10,
      r.p50 = 100 ∧ r.p25 ≠ 100 ∧ r.p99 ≠ 100 ∧ r.percentiles = [] := by
  refine ⟨mkRawAPIResult raw9, ?_, rfl, ?_, ?_, rfl⟩
  · decide
  · decide
  · decide

end VaporTrail
